import Mathlib

/-!
# SimpleShell (`shell.c`): a shallow embedding and its specification

`shell.c` is a one-file interactive shell: `signals()` installs one handler for
three signals, and `main` loops over prompt / `fgets` / dispatch, where the
dispatch is `exit`, `explode` (a deliberate `fclose(NULL)`), or `fork` +
`execlp` + `waitpid`.

The embedding keeps the program's own structure.

* C `char`s are natural numbers (byte values); the `char buffer[80]` of `main`
  is a `List Nat`, and a C string inside it ends at the first `0` byte.
* The calls into libc and the kernel (`printf`, `fprintf`, `perror`, `fflush`,
  `fgets`, `fork`, `execlp`, `waitpid`, `fclose`, `exit`) become `Event`s, in
  program order, so that a run of the program is a list of events together
  with an `Outcome`.
* What the operating system answers (the value `fork` returns in this
  process, whether `execlp` succeeds, the text of `strerror(errno)`, what
  `fclose(NULL)` does) is an explicit parameter `OS`.
* `while (TRUE)` is run with a fuel that counts loop iterations.
-/

namespace Shell

/-! ## Constants of the source -/

/-- The macro `BUFF_SIZE` of `shell.c`, line 45. -/
def BUFF_SIZE : Nat := 80

/-- The signal numbers `SIGSEGV`, `SIGINT` and `SIGTERM` come from the
platform's `<signal.h>`, which is not part of the repository: they are taken
as a parameter.  The three are `case` labels of one `switch`, hence pairwise
distinct (a C compiler rejects duplicate labels). -/
structure SigNums where
  SIGSEGV : Int
  SIGINT : Int
  SIGTERM : Int
  int_ne_segv : SIGINT ≠ SIGSEGV
  term_ne_segv : SIGTERM ≠ SIGSEGV
  term_ne_int : SIGTERM ≠ SIGINT

/-- The numbering used by Linux (and by every common Unix). -/
def linuxSignals : SigNums :=
  { SIGSEGV := 11, SIGINT := 2, SIGTERM := 15,
    int_ne_segv := by decide, term_ne_segv := by decide, term_ne_int := by decide }

/-- A string literal of the source as the bytes of a C string (without the
terminating `0`). -/
def lit (s : String) : List Nat := s.toList.map Char.toNat

/-- The byte `'\n'`. -/
def NL : Nat := 10

/-! ## Events and outcomes -/

/-- The two output streams of the process. -/
inductive Stream
  | stdout
  | stderr
  deriving DecidableEq, Repr

/-- One call into the C library / operating system made by the program. -/
inductive Event
  /-- A `printf`, `fprintf` or `perror`: the text handed to the stream. -/
  | write (s : Stream) (text : String)
  /-- A `fflush(s)`. -/
  | flush (s : Stream)
  /-- The `fgets(buffer, BUFF_SIZE, stdin)`: the bytes it took from the input
  (`[]` when it returned `NULL` at end of input). -/
  | fgets (line : List Nat)
  /-- The `fork()`, with the value it returned in this process. -/
  | fork (ret : Int)
  /-- The `execlp(file, arg0, ..., NULL)`: the program is looked up on `PATH`,
  `args` is the argument vector, the environment is inherited. -/
  | execlp (file : List Nat) (args : List (List Nat))
  /-- The `waitpid(pid, 0, 0)`: it returns once child `pid` has finished. -/
  | waitpid (pid : Int)
  /-- The `fclose(NULL)`. -/
  | fcloseNull
  deriving DecidableEq, Repr

/-- The variables of `main` that live across iterations, and what is left of
the standard input. -/
structure State where
  /-- The array `char buffer[BUFF_SIZE]`. -/
  buffer : List Nat
  /-- The bytes of standard input not yet read; the end of the list is the
  end of input. -/
  stdin : List Nat
  /-- How many times `fork()` has been called so far. -/
  forks : Nat
  deriving DecidableEq, Repr

/-- How a piece of the program ends. -/
inductive Outcome
  /-- Control is back at the head of the `while` loop. -/
  | next (st : State)
  /-- The process called `exit(code)`. -/
  | exited (code : Int)
  /-- A successful `execlp`: the process now runs another program. -/
  | replaced
  /-- The process was killed by a signal that has no handler. -/
  | killed (signum : Int)
  /-- The C program has no defined behaviour from here on (an access outside
  `buffer`, or a return from the handler of a synchronous fault). -/
  | undefined
  deriving DecidableEq, Repr

/-- The status a parent observes for `exit(code)`: the low 8 bits. -/
def exitStatus (code : Int) : Nat := (code % 256).toNat

/-- The answers of the operating system. -/
structure OS where
  /-- The value returned in this process by the `k`-th call of `fork()`
  (`k` counts from 0): negative on failure, `0` in the child, the child's
  pid in the parent. -/
  fork : Nat → Int
  /-- The text `strerror(errno)` after the `k`-th `fork()` failed. -/
  forkError : Nat → String
  /-- The result of `execlp(file, file, NULL)`: `none` when the image is replaced,
  `some reason` when it returns `-1`, `reason` being `strerror(errno)`. -/
  execlp : List Nat → Option String
  /-- Whether `fclose(NULL)` raises `SIGSEGV` (it does with glibc); otherwise
  it returns. -/
  fcloseNullFaults : Bool

/-! ## The C library functions used -/

/-- The bytes `fgets` takes from the input when it may store at most `n`
of them: up to and including the first newline, at most `n`, and no more than
there are.  Returns the bytes taken and the rest of the input. -/
def readLine : Nat → List Nat → List Nat × List Nat
  | 0, s => ([], s)
  | _ + 1, [] => ([], [])
  | n + 1, c :: s =>
    if c = NL then ([c], s)
    else ((c :: (readLine n s).1), (readLine n s).2)

/-- The call `fgets(buf, size, stdin)`: takes at most `size - 1` bytes, stores
them followed by a `0` at the start of `buf`; when nothing could be read (end
of input) it returns `NULL` and leaves `buf` untouched.  The result is the
bytes taken, the new buffer and the rest of the input. -/
def fgets (buf : List Nat) (size : Nat) (input : List Nat) :
    List Nat × List Nat × List Nat :=
  let r := readLine (size - 1) input
  if r.1 = [] then ([], buf, r.2)
  else (r.1, r.1 ++ 0 :: buf.drop (r.1.length + 1), r.2)

/-- The call `strlen(buf)` on an array: the index of the first `0` byte, or
`none` when the array holds none (the C function would read past it). -/
def strlen : List Nat → Option Nat
  | [] => none
  | c :: s => if c = 0 then some 0 else (strlen s).map (· + 1)

/-- The call `strncmp(a, b, n)`: compares at most `n` bytes and stops after a
`0` byte; a list that has run out reads as its terminating `0`. -/
def strncmp : List Nat → List Nat → Nat → Int
  | _, _, 0 => 0
  | a, b, n + 1 =>
    if a.headD 0 ≠ b.headD 0 then (a.headD 0 : Int) - (b.headD 0 : Int)
    else if a.headD 0 = 0 then 0
    else strncmp a.tail b.tail n

/-- The C string held in an array: the bytes before the first `0`. -/
def cstr (buf : List Nat) : List Nat := buf.takeWhile (· ≠ 0)

/-- The call `perror(msg)`: writes `msg`, a colon and `strerror(errno)` to the
error stream. -/
def perror (msg : String) (reason : String) : Event :=
  .write .stderr (msg ++ ": " ++ reason ++ "\n")

/-! ## `handler` and `signals` (lines 49-89) -/

/-- The function `handler(signum)`: the events it produces, and `some code`
when it ends in `exit(code)`, `none` if it returned to the interrupted code. -/
def handler (S : SigNums) (signum : Int) : List Event × Option Int :=
  if signum = S.SIGSEGV then
    ([.write .stderr "A segmentation fault has been detected.\n",
      .write .stderr "Exiting...\n",
      .flush .stderr], some (-1))
  else if signum = S.SIGINT then
    ([.write .stderr "\nAn interrupt signal has been received.\n",
      .write .stderr "Exiting...\n",
      .flush .stderr], some 0)
  else if signum = S.SIGTERM then
    ([.write .stderr "\nA termination signal has been received.\n",
      .write .stderr "Exiting...\n",
      .flush .stderr], some 0)
  else
    ([.write .stdout ("Caught signal " ++ toString signum ++ "\n")], some 0)

/-- The function `signals()`: the signals for which `handler` is installed. -/
def signals (S : SigNums) : List Int := [S.SIGSEGV, S.SIGINT, S.SIGTERM]

/-- Delivery of signal `signum` to the process once `signals()` has run: the
handler runs if one is installed, otherwise the default action kills the
process. -/
def deliver (S : SigNums) (signum : Int) : List Event × Outcome :=
  if signum ∈ signals S then
    match handler S signum with
    | (ev, some code) => (ev, .exited code)
    | (ev, none) => (ev, .undefined)
  else ([], .killed signum)

/-! ## `main` (lines 95-170) -/

/-- The prompt of line 110. -/
def prompt : Event := .write .stdout "prompt> "

/-- Lines 163-164: the two flushes at the end of the loop body. -/
def flushes : List Event := [.flush .stderr, .flush .stdout]

/-- Lines 135-159: the `else` branch, `fork` and what follows in each of the
two processes. `buf` is the buffer after the strip. -/
def launch (os : OS) (st : State) (buf : List Nat) : List Event × Outcome :=
  let pid := os.fork st.forks
  let st1 : State := { buffer := buf, stdin := st.stdin, forks := st.forks + 1 }
  if pid < 0 then
    (.fork pid :: perror "Fork failed" (os.forkError st.forks) :: flushes, .next st1)
  else if pid = 0 then
    match os.execlp (cstr buf) with
    | none => ([.fork pid, .execlp (cstr buf) [cstr buf]], .replaced)
    | some reason =>
      ([.fork pid, .execlp (cstr buf) [cstr buf], perror "Exec failed" reason],
        if strncmp buf (lit "exit") 4 = 0 then .exited 0 else .exited 0)
  else
    (.fork pid :: .waitpid pid :: flushes, .next st1)

/-- Lines 125-160: the dispatch on the stripped buffer `buf`. -/
def dispatch (S : SigNums) (os : OS) (st : State) (buf : List Nat) :
    List Event × Outcome :=
  if strncmp buf (lit "exit") 4 = 0 then
    ([], .exited 0)
  else if strncmp buf (lit "explode") 7 = 0 then
    if os.fcloseNullFaults then
      (.fcloseNull :: (deliver S S.SIGSEGV).1, (deliver S S.SIGSEGV).2)
    else
      (.fcloseNull :: flushes, .next { buffer := buf, stdin := st.stdin, forks := st.forks })
  else
    launch os st buf

/-- Lines 120-123: `length = strlen(buffer); buffer[length-1] = '\0';`.
`none` when the `strlen` or the store leaves the array. -/
def strip (buf : List Nat) : Option (List Nat) :=
  match strlen buf with
  | none => none
  | some length =>
    if (length : Int) - 1 < 0 then none
    else some (buf.set (length - 1) 0)

/-- The bytes the `fgets` of line 113 takes from the input in state `st`
(`[]` when it returns `NULL`). -/
def lineRead (st : State) : List Nat := (fgets st.buffer BUFF_SIZE st.stdin).1

/-- The state after the `fgets` of line 113. -/
def afterRead (st : State) : State :=
  { buffer := (fgets st.buffer BUFF_SIZE st.stdin).2.1,
    stdin := (fgets st.buffer BUFF_SIZE st.stdin).2.2,
    forks := st.forks }

/-- Lines 109-164: one pass through the body of the `while` loop. -/
def iteration (S : SigNums) (os : OS) (st : State) : List Event × Outcome :=
  if strncmp (afterRead st).buffer (lit "\n") 1 = 0 then
    ([prompt, .fgets (lineRead st)], .next (afterRead st))
  else
    match strip (afterRead st).buffer with
    | none => ([prompt, .fgets (lineRead st)], .undefined)
    | some buf =>
      (prompt :: .fgets (lineRead st) :: (dispatch S os (afterRead st) buf).1,
        (dispatch S os (afterRead st) buf).2)

/-- The command string on which a pass from state `st` dispatches: the C
string in the buffer after the read and the strip.  It is `none` when the
pass does not get to the dispatch, on a blank line or an undefined strip. -/
def command (st : State) : Option (List Nat) :=
  if strncmp (afterRead st).buffer (lit "\n") 1 = 0 then none
  else (strip (afterRead st).buffer).map cstr

/-- The `while (TRUE)` loop of `main`, after `signals()`, run for at most
`fuel` iterations from state `st`.  The result is `.next st'` when the fuel
ran out with the loop still going. -/
def main (S : SigNums) (os : OS) : Nat → State → List Event × Outcome
  | 0, st => ([], .next st)
  | fuel + 1, st =>
    match iteration S os st with
    | (ev, .next st1) => (ev ++ (main S os fuel st1).1, (main S os fuel st1).2)
    | (ev, o) => (ev, o)

/-! ## Reading a run -/

/-- The text written to stream `s` during a run, one entry per call. -/
def written (s : Stream) : List Event → List String
  | [] => []
  | .write s1 text :: ev => if s1 = s then text :: written s ev else written s ev
  | _ :: ev => written s ev

/-- The number of `fork()` calls in a run. -/
def forkCalls : List Event → Nat
  | [] => 0
  | .fork _ :: ev => forkCalls ev + 1
  | _ :: ev => forkCalls ev

/-- The effect of one event on the list of children this process has created
and not yet waited for: a `fork` that returned a pid adds it, a `waitpid`
removes it. -/
def childStep (out : List Int) : Event → List Int
  | .fork pid => if 0 < pid then out ++ [pid] else out
  | .waitpid pid => out.erase pid
  | _ => out

/-- The children this process has created and not yet waited for, after the
events `ev`, starting from the children `out`. -/
def outstanding (out : List Int) (ev : List Event) : List Int :=
  ev.foldl childStep out

/-- An all-zero buffer, for concrete runs. -/
def zeroBuffer : List Nat := List.replicate BUFF_SIZE 0

/-- An operating system for concrete runs: every `fork` returns `ret` to this
process, no program is found, `fclose(NULL)` faults. -/
def osReturning (ret : Int) : OS :=
  { fork := fun _ => ret,
    forkError := fun _ => "Resource temporarily unavailable",
    execlp := fun _ => some "No such file or directory",
    fcloseNullFaults := true }

/-- An operating system for concrete runs in which the `n`-th `fork` is seen
from the child (it returns 0) and every other one from the parent. -/
def osChildAt (n : Nat) : OS :=
  { fork := fun k => if k = n then 0 else 7,
    forkError := fun _ => "Resource temporarily unavailable",
    execlp := fun _ => some "No such file or directory",
    fcloseNullFaults := true }

/-- A command as an operator types it on a line of its own: text (no `0`
byte), with no newline inside, and short enough for the line, newline
included, to fit in one read of `BUFF_SIZE - 1` bytes. -/
def TextCommand (cmd : List Nat) : Prop :=
  (∀ c ∈ cmd, c ≠ 0) ∧ (∀ c ∈ cmd, c ≠ NL) ∧ cmd.length + 1 < BUFF_SIZE

instance (cmd : List Nat) : Decidable (TextCommand cmd) := by
  unfold TextCommand; infer_instance

/-- Along the events `tr`, started with the children `out` outstanding, there
is never more than one child outstanding, and none at a prompt or a read. -/
def Serial : List Int → List Event → Prop
  | out, [] => out.length ≤ 1
  | out, e :: ev =>
    out.length ≤ 1 ∧ ((e = prompt ∨ ∃ l, e = .fgets l) → out = []) ∧
      Serial (childStep out e) ev

/-! ## Lemmas on the library functions -/

theorem lit_exit : lit "exit" = [101, 120, 105, 116] := by decide

theorem lit_explode : lit "explode" = [101, 120, 112, 108, 111, 100, 101] := by decide

theorem lit_nl : lit "\n" = [10] := by decide

theorem readLine_line (cmd rest : List Nat) (hnl : ∀ c ∈ cmd, c ≠ NL) :
    ∀ n, cmd.length < n → readLine n (cmd ++ NL :: rest) = (cmd ++ [NL], rest) := by
  induction cmd with
  | nil =>
    intro n hn
    obtain ⟨m, rfl⟩ := Nat.exists_eq_succ_of_ne_zero (Nat.pos_iff_ne_zero.mp hn)
    simp [readLine]
  | cons c cs ih =>
    intro n hn
    obtain ⟨m, rfl⟩ := Nat.exists_eq_succ_of_ne_zero (Nat.not_eq_zero_of_lt hn)
    have hc : c ≠ NL := hnl c (List.mem_cons_self _ _)
    have hcs : ∀ d ∈ cs, d ≠ NL := fun d hd => hnl d (List.mem_cons_of_mem _ hd)
    have hm : cs.length < m := by simpa using hn
    simp [readLine, hc, ih hcs m hm]

theorem fgets_line (buf cmd rest : List Nat) (hnl : ∀ c ∈ cmd, c ≠ NL)
    (hlen : cmd.length + 1 < BUFF_SIZE) :
    fgets buf BUFF_SIZE (cmd ++ NL :: rest) =
      (cmd ++ [NL], cmd ++ NL :: 0 :: buf.drop (cmd.length + 2), rest) := by
  have h := readLine_line cmd rest hnl (BUFF_SIZE - 1) (by omega)
  simp [fgets, h]

theorem strlen_append (a t : List Nat) (ha : ∀ c ∈ a, c ≠ 0) :
    strlen (a ++ 0 :: t) = some a.length := by
  induction a with
  | nil => simp [strlen]
  | cons c cs ih =>
    have hc : c ≠ 0 := ha c (List.mem_cons_self _ _)
    have hcs : ∀ d ∈ cs, d ≠ 0 := fun d hd => ha d (List.mem_cons_of_mem _ hd)
    simp [strlen, hc, ih hcs]

theorem cstr_append (a t : List Nat) (ha : ∀ c ∈ a, c ≠ 0) :
    cstr (a ++ 0 :: t) = a := by
  induction a with
  | nil => simp [cstr]
  | cons c cs ih =>
    have hc : c ≠ 0 := ha c (List.mem_cons_self _ _)
    have hcs : ∀ d ∈ cs, d ≠ 0 := fun d hd => ha d (List.mem_cons_of_mem _ hd)
    have := ih hcs
    simp [cstr] at this ⊢
    simp [hc, this]

theorem strncmp_eq_zero_iff (b : List Nat) (hb : ∀ c ∈ b, c ≠ 0) :
    ∀ (a t : List Nat), (∀ c ∈ a, c ≠ 0) →
      (strncmp (a ++ 0 :: t) b b.length = 0 ↔ a.take b.length = b) := by
  induction b with
  | nil => intro a t _; simp [strncmp]
  | cons y ys ih =>
    intro a t ha
    have hy : y ≠ 0 := hb y (List.mem_cons_self _ _)
    have hys : ∀ d ∈ ys, d ≠ 0 := fun d hd => hb d (List.mem_cons_of_mem _ hd)
    cases a with
    | nil =>
      simp [strncmp, hy, Ne.symm hy]
    | cons x xs =>
      have hx : x ≠ 0 := ha x (List.mem_cons_self _ _)
      have hxs : ∀ d ∈ xs, d ≠ 0 := fun d hd => ha d (List.mem_cons_of_mem _ hd)
      by_cases hxy : x = y
      · subst hxy
        simp [strncmp, hx, ih hys xs t hxs]
      · have : (x : Int) - (y : Int) ≠ 0 := by omega
        simp [strncmp, hxy, this]

theorem strip_line (cmd t : List Nat) (h0 : ∀ c ∈ cmd, c ≠ 0) :
    strip (cmd ++ NL :: 0 :: t) = some (cmd ++ 0 :: 0 :: t) := by
  have hn : ∀ c ∈ cmd ++ [NL], c ≠ 0 := by
    intro c hc
    rcases List.mem_append.mp hc with h | h
    · exact h0 c h
    · simp [NL] at h; omega
  have h := strlen_append (cmd ++ [NL]) t hn
  simp at h
  simp [strip, h]

theorem strncmp_nl (cmd t : List Nat) (hnl : ∀ c ∈ cmd, c ≠ NL) (hne : cmd ≠ []) :
    strncmp (cmd ++ NL :: t) (lit "\n") 1 ≠ 0 := by
  cases cmd with
  | nil => exact absurd rfl hne
  | cons x xs =>
    have hx : x ≠ 10 := hnl x (List.mem_cons_self _ _)
    have : (x : Int) - 10 ≠ 0 := by omega
    simp [strncmp, lit_nl, hx, this]

theorem strncmp_exit (cmd t : List Nat) (h0 : ∀ c ∈ cmd, c ≠ 0) :
    strncmp (cmd ++ 0 :: t) (lit "exit") 4 = 0 ↔ cmd.take 4 = lit "exit" := by
  have h := strncmp_eq_zero_iff (lit "exit") (by decide) cmd t h0
  simpa [lit_exit] using h

theorem strncmp_explode (cmd t : List Nat) (h0 : ∀ c ∈ cmd, c ≠ 0) :
    strncmp (cmd ++ 0 :: t) (lit "explode") 7 = 0 ↔ cmd.take 7 = lit "explode" := by
  have h := strncmp_eq_zero_iff (lit "explode") (by decide) cmd t h0
  simpa [lit_explode] using h

theorem cstr_ne_zero (buf : List Nat) : ∀ c ∈ cstr buf, c ≠ 0 := by
  intro c hc
  have := List.mem_takeWhile_imp hc
  simpa using this

theorem cstr_split (buf : List Nat) (h : 0 ∈ buf) : ∃ t, buf = cstr buf ++ 0 :: t := by
  induction buf with
  | nil => simp at h
  | cons c s ih =>
    by_cases hc : c = 0
    · subst hc
      exact ⟨s, by simp [cstr]⟩
    · have hs : 0 ∈ s := by
        rcases List.mem_cons.mp h with h1 | h1
        · exact absurd h1.symm hc
        · exact h1
      obtain ⟨t, ht⟩ := ih hs
      refine ⟨t, ?_⟩
      have hcs : cstr (c :: s) = c :: cstr s := by simp [cstr, hc]
      rw [hcs, List.cons_append, ← ht]

theorem strlen_lt (buf : List Nat) : ∀ n, strlen buf = some n → n < buf.length := by
  induction buf with
  | nil => intro n h; simp [strlen] at h
  | cons c s ih =>
    intro n h
    unfold strlen at h
    split_ifs at h
    · simp at h; subst h; simp
    · cases hs : strlen s with
      | none => simp [hs] at h
      | some m =>
        simp [hs] at h
        subst h
        have := ih m hs
        simp
        omega

theorem strip_length (buf b : List Nat) (h : strip buf = some b) : b.length = buf.length := by
  unfold strip at h
  split at h
  · simp at h
  · split_ifs at h
    simp at h
    subst h
    simp

theorem strip_mem_zero (buf b : List Nat) (h : strip buf = some b) : 0 ∈ b := by
  unfold strip at h
  split at h
  · simp at h
  · next n hn =>
    split_ifs at h with hneg
    simp at h
    subst h
    have hlt := strlen_lt buf n hn
    have hi : n - 1 < (buf.set (n - 1) 0).length := by
      rw [List.length_set]; omega
    have h0 : (buf.set (n - 1) 0)[n - 1] = 0 := by simp
    have hm := List.getElem_mem hi
    rw [h0] at hm
    exact hm

/-! ## Lemmas on the loop body -/

/-- When a pass has a command `c`, the stripped buffer holds `c` followed by
a `0`, and the pass is the prompt, the read, and the dispatch on that
buffer. -/
theorem iteration_command (S : SigNums) (os : OS) (st : State) (c : List Nat)
    (hc : command st = some c) :
    ∃ t, (∀ x ∈ c, x ≠ 0) ∧ (c ++ 0 :: t).length = (afterRead st).buffer.length ∧
      iteration S os st =
        (prompt :: .fgets (lineRead st) :: (dispatch S os (afterRead st) (c ++ 0 :: t)).1,
          (dispatch S os (afterRead st) (c ++ 0 :: t)).2) := by
  unfold command at hc
  split_ifs at hc with hblank
  cases hs : strip (afterRead st).buffer with
  | none => simp [hs] at hc
  | some b =>
    simp only [hs, Option.map_some', Option.some.injEq] at hc
    obtain ⟨t, ht⟩ := cstr_split b (strip_mem_zero _ b hs)
    rw [hc] at ht
    refine ⟨t, ?_, ?_, ?_⟩
    · rw [← hc]; exact cstr_ne_zero b
    · rw [← ht]; exact strip_length _ b hs
    · unfold iteration
      rw [if_neg hblank]
      simp only [hs, ht]

/-- A text line typed on its own is read whole, and its command is the line
without the newline. -/
theorem command_line (buf rest : List Nat) (k : Nat) (cmd : List Nat)
    (hcmd : TextCommand cmd) (hne : cmd ≠ []) :
    lineRead ⟨buf, cmd ++ NL :: rest, k⟩ = cmd ++ [NL] ∧
      command ⟨buf, cmd ++ NL :: rest, k⟩ = some cmd := by
  obtain ⟨h0, hnl, hlen⟩ := hcmd
  have hf := fgets_line buf cmd rest hnl hlen
  have hb := strncmp_nl cmd (0 :: buf.drop (cmd.length + 2)) hnl hne
  have hs := strip_line cmd (buf.drop (cmd.length + 2)) h0
  refine ⟨by simp [lineRead, hf], ?_⟩
  simp only [command, afterRead, hf]
  rw [if_neg hb, hs]
  simp [cstr_append cmd _ h0]

/-- On a blank line the loop body is the prompt and the read, and the loop
goes on. -/
theorem iteration_blank (S : SigNums) (os : OS) (buf rest : List Nat) (k : Nat) :
    iteration S os ⟨buf, NL :: rest, k⟩ =
      ([prompt, .fgets [NL]], .next ⟨NL :: 0 :: buf.drop 2, rest, k⟩) := by
  have hf := fgets_line buf [] rest (by simp) (by decide)
  simp only [List.nil_append, List.length_nil, Nat.zero_add] at hf
  have hb : strncmp (NL :: 0 :: buf.drop 2) (lit "\n") 1 = 0 := by
    simp [strncmp, lit_nl, NL]
  simp only [iteration, afterRead, lineRead, hf]
  rw [if_pos hb]

/-- Every pass through the loop body starts with the prompt followed by the
read. -/
theorem iteration_events (S : SigNums) (os : OS) (st : State) :
    ∃ tail, (iteration S os st).1 = prompt :: .fgets (lineRead st) :: tail := by
  unfold iteration
  split
  · exact ⟨[], rfl⟩
  · split
    · exact ⟨[], rfl⟩
    · exact ⟨_, rfl⟩

theorem main_succ_of_next (S : SigNums) (os : OS) (fuel : Nat) (st st1 : State)
    (ev : List Event) (h : iteration S os st = (ev, .next st1)) :
    main S os (fuel + 1) st = (ev ++ (main S os fuel st1).1, (main S os fuel st1).2) := by
  simp [main, h]

theorem main_succ_of_exited (S : SigNums) (os : OS) (fuel : Nat) (st : State)
    (ev : List Event) (code : Int) (h : iteration S os st = (ev, .exited code)) :
    main S os (fuel + 1) st = (ev, .exited code) := by
  simp [main, h]

/-- While the loop is going, the run continues with the prompt and the read
of the next pass. -/
theorem main_events (S : SigNums) (os : OS) (fuel : Nat) (st : State) :
    ∃ tail, (main S os (fuel + 1) st).1 = prompt :: .fgets (lineRead st) :: tail := by
  obtain ⟨tail, ht⟩ := iteration_events S os st
  unfold main
  split
  · next ev st1 heq =>
    rw [heq] at ht
    simp only at ht
    exact ⟨tail ++ (main S os fuel st1).1, by simp [ht]⟩
  · next ev o _ heq =>
    rw [heq] at ht
    exact ⟨tail, ht⟩

/-- When the loop goes on after a pass, the run continues with exactly one
prompt and the next read. -/
theorem main_continues (S : SigNums) (os : OS) (st st1 : State) (ev : List Event)
    (h : iteration S os st = (ev, .next st1)) (fuel : Nat) :
    ∃ tail, (main S os (fuel + 2) st).1 = ev ++ prompt :: .fgets (lineRead st1) :: tail := by
  obtain ⟨tail, ht⟩ := main_events S os fuel st1
  exact ⟨tail, by rw [main_succ_of_next S os (fuel + 1) _ _ _ h, ht]⟩

theorem launch_eq (os : OS) (st : State) (buf : List Nat) :
    launch os st buf =
      if os.fork st.forks < 0 then
        (.fork (os.fork st.forks) :: perror "Fork failed" (os.forkError st.forks) :: flushes,
          .next ⟨buf, st.stdin, st.forks + 1⟩)
      else if os.fork st.forks = 0 then
        match os.execlp (cstr buf) with
        | none => ([.fork (os.fork st.forks), .execlp (cstr buf) [cstr buf]], .replaced)
        | some reason =>
          ([.fork (os.fork st.forks), .execlp (cstr buf) [cstr buf],
            perror "Exec failed" reason], .exited 0)
      else
        (.fork (os.fork st.forks) :: .waitpid (os.fork st.forks) :: flushes,
          .next ⟨buf, st.stdin, st.forks + 1⟩) := by
  unfold launch
  simp only [ite_self]

/-- A pass whose command begins neither with "exit" nor with "explode" is the
prompt, the read, and the launch of the command. -/
theorem iteration_launch (S : SigNums) (os : OS) (st : State) (c : List Nat)
    (hc : command st = some c)
    (hexit : c.take 4 ≠ lit "exit") (hexplode : c.take 7 ≠ lit "explode") :
    ∃ t, cstr (c ++ 0 :: t) = c ∧
      iteration S os st =
        (prompt :: .fgets (lineRead st) :: (launch os (afterRead st) (c ++ 0 :: t)).1,
          (launch os (afterRead st) (c ++ 0 :: t)).2) := by
  obtain ⟨t, h0, _, hit⟩ := iteration_command S os st c hc
  refine ⟨t, cstr_append c t h0, ?_⟩
  rw [hit]
  have h1 := (strncmp_exit c t h0).not.mpr hexit
  have h2 := (strncmp_explode c t h0).not.mpr hexplode
  unfold dispatch
  rw [if_neg h1, if_neg h2]

/-! ## The claims -/

/-- C1: `handler` implements the termination table.  For `SIGSEGV` it writes
the two lines "A segmentation fault has been detected." and "Exiting..." to the
error stream and calls `exit(-1)`, observed as status 255; for `SIGINT` and
`SIGTERM` it writes a newline and the line of the signal, then "Exiting...", to
the error stream and calls `exit(0)`.  For the three signals nothing goes to
the output stream, and for every signal number the handler ends in `exit`
rather than returning. -/
theorem handler_termination_table (S : SigNums) :
    handler S S.SIGSEGV =
        ([.write .stderr "A segmentation fault has been detected.\n",
          .write .stderr "Exiting...\n", .flush .stderr], some (-1))
      ∧ exitStatus (-1) = 255
      ∧ handler S S.SIGINT =
        ([.write .stderr "\nAn interrupt signal has been received.\n",
          .write .stderr "Exiting...\n", .flush .stderr], some 0)
      ∧ handler S S.SIGTERM =
        ([.write .stderr "\nA termination signal has been received.\n",
          .write .stderr "Exiting...\n", .flush .stderr], some 0)
      ∧ exitStatus 0 = 0
      ∧ (∀ signum ∈ signals S, written .stdout (handler S signum).1 = [])
      ∧ (∀ signum, (handler S signum).2 ≠ none) := by
  refine ⟨?_, by decide, ?_, ?_, by decide, ?_, ?_⟩
  · simp [handler]
  · simp [handler, S.int_ne_segv]
  · simp [handler, S.term_ne_segv, S.term_ne_int]
  · intro signum hs
    simp only [signals, List.mem_cons, List.mem_singleton, List.not_mem_nil, or_false] at hs
    rcases hs with h | h | h
    · subst h; simp [handler, written]
    · subst h; simp [handler, written, S.int_ne_segv]
    · subst h; simp [handler, written, S.term_ne_segv, S.term_ne_int]
  · intro signum
    unfold handler
    split_ifs <;> simp

/-- C2: a pass that has a command takes the exit branch (it ends in `exit(0)`
right after the prompt and the read) exactly when the first four characters
of the command are "exit"; then the whole run is the prompt and the read, it
ends with status 0, forks no child, and writes nothing but the prompt.  A
text line read with its newline has as its command the line without the
newline, so this covers "exit" and also "exitfoo". -/
theorem exit_branch_iff (S : SigNums) (os : OS) (st : State) (c : List Nat)
    (hc : command st = some c) :
    (iteration S os st = ([prompt, .fgets (lineRead st)], .exited 0)
        ↔ c.take 4 = lit "exit")
      ∧ (c.take 4 = lit "exit" → ∀ fuel,
          main S os (fuel + 1) st = ([prompt, .fgets (lineRead st)], .exited 0))
      ∧ exitStatus 0 = 0
      ∧ forkCalls [prompt, .fgets (lineRead st)] = 0
      ∧ written .stdout [prompt, .fgets (lineRead st)] = ["prompt> "]
      ∧ written .stderr [prompt, .fgets (lineRead st)] = []
      ∧ (∀ buf rest k cmd, TextCommand cmd → cmd ≠ [] →
          lineRead ⟨buf, cmd ++ NL :: rest, k⟩ = cmd ++ [NL] ∧
            command ⟨buf, cmd ++ NL :: rest, k⟩ = some cmd) := by
  obtain ⟨t, h0, _, hit⟩ := iteration_command S os st c hc
  have key : c.take 4 = lit "exit" →
      iteration S os st = ([prompt, .fgets (lineRead st)], .exited 0) := by
    intro h
    have h1 := (strncmp_exit c t h0).mpr h
    rw [hit]
    unfold dispatch
    rw [if_pos h1]
  refine ⟨⟨?_, key⟩, ?_, by decide, ?_, ?_, ?_, ?_⟩
  · intro h
    by_contra hexit
    have h1 := (strncmp_exit c t h0).not.mpr hexit
    rw [hit] at h
    unfold dispatch at h
    rw [if_neg h1] at h
    have hev := congrArg (fun r => r.1.length) h
    simp only [List.length_cons, List.length_nil] at hev
    split_ifs at hev
    · simp at hev
    · simp [flushes] at hev
    · rw [launch_eq] at hev
      split_ifs at hev
      · simp at hev
      · split at hev <;> simp at hev
      · simp at hev
  · intro h fuel
    exact main_succ_of_exited S os fuel _ _ 0 (key h)
  · simp [forkCalls, prompt]
  · simp [written, prompt]
  · simp [written, prompt]
  · intro buf rest k cmd hcmd hne
    exact command_line buf rest k cmd hcmd hne

/-- C2 at a concrete input: the line "exitfoo" takes the exit branch, and the
run ends there whatever the fuel. -/
theorem exit_branch_iff_witness :
    command ⟨zeroBuffer, lit "exitfoo\n", 0⟩ = some (lit "exitfoo")
      ∧ (lit "exitfoo").take 4 = lit "exit"
      ∧ main linuxSignals (osReturning 7) (2 + 1) ⟨zeroBuffer, lit "exitfoo\n", 0⟩ =
          ([prompt, .fgets (lineRead ⟨zeroBuffer, lit "exitfoo\n", 0⟩)], .exited 0) :=
  ⟨by decide, by decide,
    (exit_branch_iff linuxSignals (osReturning 7) ⟨zeroBuffer, lit "exitfoo\n", 0⟩
      (lit "exitfoo") (by decide)).2.1 (by decide) 2⟩

/-- C5: launch failures are reported and never end the session.  On a pass
that launches its command: if `fork` fails, the pass writes the one diagnostic
"Fork failed: <reason>" to the error stream, nothing but the prompt to the
output stream, and the loop goes on with the next prompt; if `fork` returns 0
and `execlp` fails, the child writes the one diagnostic "Exec failed: <reason>"
to the error stream and calls `exit(0)`; and the parent of that child waits
for it, writes nothing to the error stream, and goes on with the next
prompt. -/
theorem launch_failures (S : SigNums) (os : OS) (st : State) (c : List Nat)
    (hc : command st = some c)
    (hexit : c.take 4 ≠ lit "exit") (hexplode : c.take 7 ≠ lit "explode") :
    (os.fork st.forks < 0 →
        ∃ st1, iteration S os st =
          ([prompt, .fgets (lineRead st), .fork (os.fork st.forks),
            .write .stderr ("Fork failed" ++ ": " ++ os.forkError st.forks ++ "\n"),
            .flush .stderr, .flush .stdout], .next st1)
        ∧ written .stderr (iteration S os st).1 =
            ["Fork failed" ++ ": " ++ os.forkError st.forks ++ "\n"]
        ∧ written .stdout (iteration S os st).1 = ["prompt> "]
        ∧ ∀ fuel, ∃ tail, (main S os (fuel + 2) st).1 =
            (iteration S os st).1 ++ prompt :: .fgets (lineRead st1) :: tail)
      ∧ (os.fork st.forks = 0 → ∀ reason, os.execlp c = some reason →
        iteration S os st =
          ([prompt, .fgets (lineRead st), .fork 0, .execlp c [c],
            .write .stderr ("Exec failed" ++ ": " ++ reason ++ "\n")], .exited 0)
        ∧ written .stderr (iteration S os st).1 =
            ["Exec failed" ++ ": " ++ reason ++ "\n"]
        ∧ exitStatus 0 = 0)
      ∧ (0 < os.fork st.forks →
        ∃ st1, iteration S os st =
          ([prompt, .fgets (lineRead st), .fork (os.fork st.forks),
            .waitpid (os.fork st.forks), .flush .stderr, .flush .stdout], .next st1)
        ∧ written .stderr (iteration S os st).1 = []
        ∧ ∀ fuel, ∃ tail, (main S os (fuel + 2) st).1 =
            (iteration S os st).1 ++ prompt :: .fgets (lineRead st1) :: tail) := by
  obtain ⟨t, hcs, hit⟩ := iteration_launch S os st c hc hexit hexplode
  rw [launch_eq] at hit
  simp only [hcs, afterRead] at hit
  have hcont : ∀ ev st1, iteration S os st = (ev, .next st1) →
      ∀ fuel, ∃ tail, (main S os (fuel + 2) st).1 =
        (iteration S os st).1 ++ prompt :: .fgets (lineRead st1) :: tail := by
    intro ev st1 hev fuel
    obtain ⟨tail, ht⟩ := main_continues S os st st1 ev hev fuel
    exact ⟨tail, by rw [ht, hev]⟩
  refine ⟨?_, ?_, ?_⟩
  · intro hneg
    simp only [if_pos hneg] at hit
    have hres : iteration S os st =
        ([prompt, .fgets (lineRead st), .fork (os.fork st.forks),
          .write .stderr ("Fork failed" ++ ": " ++ os.forkError st.forks ++ "\n"),
          .flush .stderr, .flush .stdout],
          .next ⟨c ++ 0 :: t, (fgets st.buffer BUFF_SIZE st.stdin).2.2, st.forks + 1⟩) := by
      rw [hit]; rfl
    refine ⟨_, hres, ?_, ?_, hcont _ _ hres⟩
    · rw [hres]; simp [written, prompt]
    · rw [hres]; simp [written, prompt]
  · intro hz reason hreason
    have hn : ¬ os.fork st.forks < 0 := by omega
    simp only [if_neg hn, if_pos hz, hreason] at hit
    have hres : iteration S os st =
        ([prompt, .fgets (lineRead st), .fork 0, .execlp c [c],
          .write .stderr ("Exec failed" ++ ": " ++ reason ++ "\n")], .exited 0) := by
      rw [hit, hz]; rfl
    refine ⟨hres, ?_, by decide⟩
    rw [hres]; simp [written, prompt]
  · intro hpos
    have hn : ¬ os.fork st.forks < 0 := by omega
    have hz : ¬ os.fork st.forks = 0 := by omega
    simp only [if_neg hn, if_neg hz] at hit
    have hres : iteration S os st =
        ([prompt, .fgets (lineRead st), .fork (os.fork st.forks),
          .waitpid (os.fork st.forks), .flush .stderr, .flush .stdout],
          .next ⟨c ++ 0 :: t, (fgets st.buffer BUFF_SIZE st.stdin).2.2, st.forks + 1⟩) := by
      rw [hit]; rfl
    refine ⟨_, hres, ?_, hcont _ _ hres⟩
    rw [hres]; simp [written, prompt]

/-- C5 at a concrete input: the line "nosuchprogram", with a failing `fork`,
in the child where `execlp` finds no such file, and in the parent of that
child. -/
theorem launch_failures_witness :
    command ⟨zeroBuffer, lit "nosuchprogram\n", 0⟩ = some (lit "nosuchprogram")
      ∧ (lit "nosuchprogram").take 4 ≠ lit "exit"
      ∧ (lit "nosuchprogram").take 7 ≠ lit "explode"
      ∧ (∃ st1, iteration linuxSignals (osReturning (-1))
            ⟨zeroBuffer, lit "nosuchprogram\n", 0⟩ =
          ([prompt, .fgets (lineRead ⟨zeroBuffer, lit "nosuchprogram\n", 0⟩), .fork (-1),
            .write .stderr
              ("Fork failed" ++ ": " ++ "Resource temporarily unavailable" ++ "\n"),
            .flush .stderr, .flush .stdout], .next st1))
      ∧ written .stderr (iteration linuxSignals (osReturning 0)
          ⟨zeroBuffer, lit "nosuchprogram\n", 0⟩).1 =
            ["Exec failed" ++ ": " ++ "No such file or directory" ++ "\n"]
      ∧ written .stderr (iteration linuxSignals (osReturning 7)
          ⟨zeroBuffer, lit "nosuchprogram\n", 0⟩).1 = [] :=
  ⟨by decide, by decide, by decide,
    (fun h => ⟨h.choose, h.choose_spec.1⟩)
      ((launch_failures linuxSignals (osReturning (-1))
        ⟨zeroBuffer, lit "nosuchprogram\n", 0⟩ (lit "nosuchprogram")
        (by decide) (by decide) (by decide)).1 (by decide)),
    ((launch_failures linuxSignals (osReturning 0)
        ⟨zeroBuffer, lit "nosuchprogram\n", 0⟩ (lit "nosuchprogram")
        (by decide) (by decide) (by decide)).2.1 rfl _ rfl).2.1,
    (fun h => h.choose_spec.2.1)
      ((launch_failures linuxSignals (osReturning 7)
        ⟨zeroBuffer, lit "nosuchprogram\n", 0⟩ (lit "nosuchprogram")
        (by decide) (by decide) (by decide)).2.2 (by decide))⟩

theorem dispatch_events_nil (S : SigNums) (os : OS) (st : State) (buf : List Nat)
    (h : (dispatch S os st buf).1 = []) : (dispatch S os st buf).2 = .exited 0 := by
  unfold dispatch at h ⊢
  by_cases h1 : strncmp buf (lit "exit") 4 = 0
  · rw [if_pos h1]
  · rw [if_neg h1] at h
    exfalso
    by_cases h2 : strncmp buf (lit "explode") 7 = 0
    · rw [if_pos h2] at h
      split_ifs at h
    · rw [if_neg h2, launch_eq] at h
      split_ifs at h
      split at h <;> simp at h

theorem readLine_head_nl (n : Nat) (input : List Nat) (t : List Nat)
    (h : (readLine n input).1 = NL :: t) : t = [] := by
  cases n with
  | zero => simp [readLine] at h
  | succ m =>
    cases input with
    | nil => simp [readLine] at h
    | cons c s =>
      by_cases hc : c = NL
      · simp [readLine, hc] at h
        exact h
      · simp only [readLine, if_neg hc] at h
        injection h with h1 _
        exact absurd h1 hc

/-- C7: on a line that is just a newline the loop body forks no child, does
not terminate, writes nothing to the error stream, and the run continues
directly with the next prompt; conversely, when the read succeeded and the
body took the blank-line branch (prompt and read only, loop goes on), the line
read was exactly one newline. -/
theorem blank_line (S : SigNums) (os : OS) (buf rest : List Nat) (k : Nat) :
    iteration S os ⟨buf, NL :: rest, k⟩ =
        ([prompt, .fgets [NL]], .next ⟨NL :: 0 :: buf.drop 2, rest, k⟩)
      ∧ forkCalls (iteration S os ⟨buf, NL :: rest, k⟩).1 = 0
      ∧ written .stderr (iteration S os ⟨buf, NL :: rest, k⟩).1 = []
      ∧ (∀ fuel, ∃ tail, (main S os (fuel + 2) ⟨buf, NL :: rest, k⟩).1 =
          prompt :: .fgets [NL] :: prompt :: tail)
      ∧ (∀ st st1, lineRead st ≠ [] →
          iteration S os st = ([prompt, .fgets (lineRead st)], .next st1) →
          lineRead st = [NL]) := by
  have hb := iteration_blank S os buf rest k
  refine ⟨hb, ?_, ?_, ?_, ?_⟩
  · rw [hb]; simp [forkCalls, prompt]
  · rw [hb]; simp [written, prompt]
  · intro fuel
    obtain ⟨tail, ht⟩ := main_continues S os _ _ _ hb fuel
    exact ⟨_ :: tail, by rw [ht]; rfl⟩
  · intro st st1 hread hit
    have hline : lineRead st = (readLine (BUFF_SIZE - 1) st.stdin).1 := by
      unfold lineRead fgets
      simp only
      split_ifs with h
      · exact h.symm
      · rfl
    have hbuf : (afterRead st).buffer =
        (readLine (BUFF_SIZE - 1) st.stdin).1 ++
          0 :: st.buffer.drop ((readLine (BUFF_SIZE - 1) st.stdin).1.length + 1) := by
      rw [hline] at hread
      unfold afterRead fgets
      simp only
      rw [if_neg hread]
    unfold iteration at hit
    split_ifs at hit with hblank
    · rw [hbuf] at hblank
      rw [hline] at hread ⊢
      cases hl : (readLine (BUFF_SIZE - 1) st.stdin).1 with
      | nil => exact absurd hl hread
      | cons c t =>
        rw [hl] at hblank
        have hc : c = NL := by
          by_contra hne
          have hne1 : c ≠ 10 := hne
          have : (c : Int) - 10 ≠ 0 := by omega
          simp [strncmp, lit_nl, hne1, this] at hblank
        subst hc
        rw [readLine_head_nl _ _ t hl]
    · exfalso
      split at hit
      · simp at hit
      · next b _ =>
        have hev := congrArg (fun r => r.1) hit
        have hout := congrArg (fun r => r.2) hit
        simp only [List.cons.injEq, true_and] at hev
        have := dispatch_events_nil S os _ b hev
        simp only at hout
        rw [this] at hout
        simp at hout


/-! ### Serial execution -/

theorem outstanding_append (out : List Int) (a b : List Event) :
    outstanding out (a ++ b) = outstanding (outstanding out a) b := by
  simp [outstanding, List.foldl_append]

theorem serial_append (a b : List Event) :
    ∀ out, Serial out a → Serial (outstanding out a) b → Serial out (a ++ b) := by
  induction a with
  | nil => intro out _ hb; simpa [outstanding] using hb
  | cons e ev ih =>
    intro out ha hb
    obtain ⟨h1, h2, h3⟩ := ha
    exact ⟨h1, h2, ih _ h3 (by simpa [outstanding] using hb)⟩

theorem serial_length (tr : List Event) : ∀ out, Serial out tr → out.length ≤ 1 := by
  cases tr with
  | nil => intro out h; exact h
  | cons e ev => intro out h; exact h.1

theorem serial_split (p : List Event) :
    ∀ out q, Serial out (p ++ q) →
      (outstanding out p).length ≤ 1 ∧
        (∀ e q1, q = e :: q1 → (e = prompt ∨ ∃ l, e = .fgets l) → outstanding out p = []) := by
  induction p with
  | nil =>
    intro out q h
    refine ⟨serial_length _ _ h, ?_⟩
    intro e q1 hq he
    subst hq
    exact h.2.1 he
  | cons x xs ih =>
    intro out q h
    have := ih (childStep out x) q h.2.2
    simpa [outstanding] using this

theorem mem_outstanding (a : Int) (m : List Event) (hm : Event.waitpid a ∉ m) :
    ∀ out, a ∈ out → a ∈ outstanding out m := by
  induction m with
  | nil => intro out h; simpa [outstanding] using h
  | cons e ev ih =>
    intro out h
    have hev : Event.waitpid a ∉ ev := fun hh => hm (List.mem_cons_of_mem _ hh)
    have he : e ≠ Event.waitpid a := fun hh => hm (hh ▸ List.mem_cons_self _ _)
    have hstep : a ∈ childStep out e := by
      cases e with
      | fork pid =>
        simp only [childStep]
        split_ifs
        · exact List.mem_append_left _ h
        · exact h
      | waitpid pid =>
        have hne : a ≠ pid := by
          rintro rfl
          exact he rfl
        simp only [childStep]
        exact (List.mem_erase_of_ne hne).mpr h
      | write _ _ => exact h
      | flush _ => exact h
      | fgets _ => exact h
      | execlp _ _ => exact h
      | fcloseNull => exact h
    have := ih hev _ hstep
    simpa [outstanding] using this

theorem launch_serial (os : OS) (st : State) (buf : List Nat) :
    Serial [] (launch os st buf).1 ∧
      (∀ st1, (launch os st buf).2 = .next st1 → outstanding [] (launch os st buf).1 = []) := by
  rw [launch_eq]
  split_ifs with hneg hz
  · have h : ¬ 0 < os.fork st.forks := by omega
    simp [Serial, childStep, outstanding, perror, flushes, prompt, h]
  · split <;> simp [Serial, childStep, outstanding, perror, prompt, hz]
  · have h : 0 < os.fork st.forks := by omega
    simp [Serial, childStep, outstanding, flushes, prompt, h]

theorem dispatch_serial (S : SigNums) (os : OS) (st : State) (buf : List Nat) :
    Serial [] (dispatch S os st buf).1 ∧
      (∀ st1, (dispatch S os st buf).2 = .next st1 →
        outstanding [] (dispatch S os st buf).1 = []) := by
  unfold dispatch
  split_ifs
  · simp [Serial, outstanding]
  · simp [Serial, childStep, outstanding, deliver, signals, handler, prompt]
  · simp [Serial, childStep, outstanding, flushes, prompt]
  · exact launch_serial os st buf

theorem iteration_serial (S : SigNums) (os : OS) (st : State) :
    Serial [] (iteration S os st).1 ∧
      (∀ st1, (iteration S os st).2 = .next st1 →
        outstanding [] (iteration S os st).1 = []) := by
  unfold iteration
  split_ifs
  · simp [Serial, childStep, outstanding, prompt]
  · split
    · simp [Serial, childStep, outstanding, prompt]
    · next b _ =>
      have hd := dispatch_serial S os (afterRead st) b
      refine ⟨?_, ?_⟩
      · simpa [Serial, childStep, prompt] using hd.1
      · intro st1 h1
        have := hd.2 st1 h1
        simpa [outstanding, childStep, prompt] using this

theorem main_serial (S : SigNums) (os : OS) :
    ∀ fuel st, Serial [] (main S os fuel st).1 ∧
      (∀ st1, (main S os fuel st).2 = .next st1 → outstanding [] (main S os fuel st).1 = []) := by
  intro fuel
  induction fuel with
  | zero => intro st; simp [main, Serial, outstanding]
  | succ n ih =>
    intro st
    have hi := iteration_serial S os st
    unfold main
    split
    · next ev st1 heq =>
      rw [heq] at hi
      have hout := hi.2 st1 rfl
      simp only at hout hi ⊢
      refine ⟨serial_append _ _ _ hi.1 (by rw [hout]; exact (ih st1).1), ?_⟩
      intro st2 h2
      rw [outstanding_append, hout]
      exact (ih st1).2 st2 h2
    · next ev o _ heq =>
      rw [heq] at hi
      exact hi

/-- C6: serial execution.  At every point of every run of the loop (every way
to split the events of a run into what has happened and what follows) at most
one child created by this process has not been waited for; there is none at
all when the prompt is emitted and when a line is read; and of two `fork`s
that returned a pid, the `waitpid` on the first pid lies between them. -/
theorem serial_execution (S : SigNums) (os : OS) (fuel : Nat) (st : State) :
    (∀ p q, (main S os fuel st).1 = p ++ q → (outstanding [] p).length ≤ 1)
      ∧ (∀ p e q, (main S os fuel st).1 = p ++ e :: q →
          (e = prompt ∨ ∃ l, e = .fgets l) → outstanding [] p = [])
      ∧ (∀ p a m b q, (main S os fuel st).1 = p ++ .fork a :: (m ++ .fork b :: q) →
          0 < a → 0 < b → .waitpid a ∈ m) := by
  have hs := (main_serial S os fuel st).1
  have h1 : ∀ p q, (main S os fuel st).1 = p ++ q → (outstanding [] p).length ≤ 1 := by
    intro p q hpq
    rw [hpq] at hs
    exact (serial_split p [] q hs).1
  refine ⟨h1, ?_, ?_⟩
  · intro p e q hpq he
    rw [hpq] at hs
    exact (serial_split p [] (e :: q) hs).2 e q rfl he
  · intro p a m b q hpq ha hb
    by_contra hw
    have hlen := h1 (p ++ .fork a :: (m ++ [.fork b])) q (by simp [hpq])
    have hmem : a ∈ outstanding (childStep (outstanding [] p) (.fork a)) m := by
      apply mem_outstanding a m hw
      simp [childStep, ha]
    have hcalc : outstanding [] (p ++ .fork a :: (m ++ [.fork b])) =
        outstanding (childStep (outstanding [] p) (.fork a)) m ++ [b] := by
      simp [outstanding, List.foldl_append, childStep, hb]
    rw [hcalc] at hlen
    have hpos : 0 < (outstanding (childStep (outstanding [] p) (.fork a)) m).length :=
      List.length_pos_of_mem hmem
    rw [List.length_append, List.length_singleton] at hlen
    omega

/-- C6 at a concrete input: in the run on the lines "ls" and "ps" both
commands are launched, and the `waitpid` on the first child lies between the
two `fork`s. -/
theorem serial_execution_witness :
    (main linuxSignals (osReturning 7) 2 ⟨zeroBuffer, lit "ls\nps\n", 0⟩).1 =
        [prompt, .fgets (lit "ls\n")] ++ .fork 7 ::
          ([.waitpid 7, .flush .stderr, .flush .stdout, prompt, .fgets (lit "ps\n")] ++
            .fork 7 :: [.waitpid 7, .flush .stderr, .flush .stdout])
      ∧ Event.waitpid 7 ∈
        [.waitpid 7, .flush .stderr, .flush .stdout, prompt, .fgets (lit "ps\n")] :=
  ⟨by decide,
    (serial_execution linuxSignals (osReturning 7) 2 ⟨zeroBuffer, lit "ls\nps\n", 0⟩).2.2
      [prompt, .fgets (lit "ls\n")] 7
      [.waitpid 7, .flush .stderr, .flush .stdout, prompt, .fgets (lit "ps\n")] 7
      [.waitpid 7, .flush .stderr, .flush .stdout] (by decide) (by decide) (by decide)⟩

/-! ### Lines longer than the buffer -/

theorem readLine_chunk (chunk tail : List Nat) (hnl : ∀ c ∈ chunk, c ≠ NL) :
    readLine chunk.length (chunk ++ tail) = (chunk, tail) := by
  induction chunk with
  | nil => simp [readLine]
  | cons c cs ih =>
    have hc : c ≠ NL := hnl c (List.mem_cons_self _ _)
    have hcs : ∀ d ∈ cs, d ≠ NL := fun d hd => hnl d (List.mem_cons_of_mem _ hd)
    simp [readLine, hc, ih hcs]

theorem readLine_take (a rest : List Nat) (hnl : ∀ c ∈ a, c ≠ NL) :
    ∀ n, (readLine n (a ++ NL :: rest)).1 = (a ++ [NL]).take n := by
  induction a with
  | nil =>
    intro n
    cases n with
    | zero => simp [readLine]
    | succ m => simp [readLine]
  | cons c cs ih =>
    intro n
    have hc : c ≠ NL := hnl c (List.mem_cons_self _ _)
    have hcs : ∀ d ∈ cs, d ≠ NL := fun d hd => hnl d (List.mem_cons_of_mem _ hd)
    cases n with
    | zero => simp [readLine]
    | succ m => simp [readLine, hc, ih hcs m]

/-- What a pass reads is what `readLine` takes from the input, whether or not
`fgets` returns `NULL`. -/
theorem lineRead_eq (st : State) :
    lineRead st = (readLine (BUFF_SIZE - 1) st.stdin).1 := by
  unfold lineRead fgets
  simp only
  split_ifs with h
  · exact h.symm
  · rfl

theorem launch_next (os : OS) (st st1 : State) (buf : List Nat)
    (h : (launch os st buf).2 = .next st1) : st1.stdin = st.stdin ∧ st1.buffer = buf := by
  rw [launch_eq] at h
  split_ifs at h
  · simp at h; subst h; exact ⟨rfl, rfl⟩
  · split at h <;> simp at h
  · simp at h; subst h; exact ⟨rfl, rfl⟩

theorem dispatch_next (S : SigNums) (os : OS) (st st1 : State) (buf : List Nat)
    (h : (dispatch S os st buf).2 = .next st1) : st1.stdin = st.stdin ∧ st1.buffer = buf := by
  unfold dispatch at h
  split_ifs at h
  · simp [deliver, signals, handler] at h
  · simp only [Outcome.next.injEq] at h; subst h; exact ⟨rfl, rfl⟩
  · exact launch_next os st st1 buf h

/-- When the loop goes on after a pass, the input left is what `fgets` left,
and the buffer has the size it had after `fgets`. -/
theorem iteration_next (S : SigNums) (os : OS) (st st1 : State)
    (h : (iteration S os st).2 = .next st1) :
    st1.stdin = (afterRead st).stdin ∧
      st1.buffer.length = (afterRead st).buffer.length := by
  unfold iteration at h
  split_ifs at h
  · simp at h; subst h; exact ⟨rfl, rfl⟩
  · split at h
    · simp at h
    · next b hb =>
      have := dispatch_next S os _ st1 b h
      exact ⟨this.1, by rw [this.2]; exact strip_length _ _ hb⟩

/-- C8, as the code has it: a line of more than 79 visible characters is
neither truncated nor rejected.  The read stores its first 79 characters and
the terminator, which fill the 80-byte buffer exactly, and leaves the rest of
the line in the input; when the loop goes on, the buffer still has 80 bytes
and the read of the next pass takes the first 79 bytes at most of what is
left of that line, newline included: all of it with its newline when fewer
than 79 characters are left, its next 79 characters otherwise. -/
theorem long_line_chunks (S : SigNums) (os : OS) (buf chunk more rest : List Nat) (k : Nat)
    (hbuf : buf.length = BUFF_SIZE) (hlen : chunk.length = BUFF_SIZE - 1)
    (hnl : ∀ c ∈ chunk, c ≠ NL) (hmore : more ≠ []) (hmnl : ∀ c ∈ more, c ≠ NL) :
    fgets buf BUFF_SIZE (chunk ++ (more ++ NL :: rest)) =
        (chunk, chunk ++ [0], more ++ NL :: rest)
      ∧ (chunk ++ [0]).length = BUFF_SIZE
      ∧ (∃ tail, (iteration S os ⟨buf, chunk ++ (more ++ NL :: rest), k⟩).1 =
          prompt :: .fgets chunk :: tail)
      ∧ (∀ st1, (iteration S os ⟨buf, chunk ++ (more ++ NL :: rest), k⟩).2 = .next st1 →
          st1.stdin = more ++ NL :: rest ∧ st1.buffer.length = BUFF_SIZE
            ∧ lineRead st1 = (more ++ [NL]).take (BUFF_SIZE - 1)
            ∧ lineRead st1 ≠ []
            ∧ (more.length < BUFF_SIZE - 1 → lineRead st1 = more ++ [NL])
            ∧ (BUFF_SIZE - 1 ≤ more.length → lineRead st1 = more.take (BUFF_SIZE - 1))
            ∧ ∃ tail, (iteration S os st1).1 =
                prompt :: .fgets ((more ++ [NL]).take (BUFF_SIZE - 1)) :: tail) := by
  have hr := readLine_chunk chunk (more ++ NL :: rest) hnl
  rw [hlen] at hr
  have hne : chunk ≠ [] := by
    rintro rfl
    simp [BUFF_SIZE] at hlen
  have hf : fgets buf BUFF_SIZE (chunk ++ (more ++ NL :: rest)) =
      (chunk, chunk ++ [0], more ++ NL :: rest) := by
    unfold fgets
    simp only [hr, if_neg hne]
    have hd : buf.drop (chunk.length + 1) = [] := by
      apply List.drop_eq_nil_of_le
      rw [hbuf, hlen]
      decide
    rw [hd]
  have hsize : (chunk ++ [0]).length = BUFF_SIZE := by
    rw [List.length_append, hlen]
    rfl
  refine ⟨hf, hsize, ?_, ?_⟩
  · obtain ⟨tail, ht⟩ := iteration_events S os ⟨buf, chunk ++ (more ++ NL :: rest), k⟩
    simp only [lineRead, hf] at ht
    exact ⟨tail, ht⟩
  · intro st1 h1
    have hn := iteration_next S os _ st1 h1
    simp only [afterRead, hf] at hn
    have hline : lineRead st1 = (more ++ [NL]).take (BUFF_SIZE - 1) := by
      rw [lineRead_eq, hn.1]
      exact readLine_take more rest hmnl (BUFF_SIZE - 1)
    refine ⟨hn.1, by rw [hn.2]; exact hsize, hline, ?_, ?_, ?_, ?_⟩
    · rw [hline]
      cases more with
      | nil => exact absurd rfl hmore
      | cons c cs => simp [BUFF_SIZE]
    · intro hshort
      rw [hline]
      apply List.take_of_length_le
      rw [List.length_append, List.length_singleton]
      omega
    · intro hlong
      rw [hline]
      exact List.take_append_of_le_length hlong
    · obtain ⟨tail, ht⟩ := iteration_events S os st1
      rw [hline] at ht
      exact ⟨tail, ht⟩

set_option maxRecDepth 100000 in
/-- C8 at concrete inputs: on a line of 80 letters "a" the first read takes 79
of them, and the next pass reads the last "a" with the newline; on a line of
79 letters "a" and 79 letters "b" the next pass reads the 79 letters "b"
without the newline. -/
theorem long_line_chunks_witness :
    zeroBuffer.length = BUFF_SIZE ∧ (List.replicate 79 97).length = BUFF_SIZE - 1
      ∧ (∀ c ∈ List.replicate 79 97, c ≠ NL) ∧ [97] ≠ ([] : List Nat)
      ∧ (∀ c ∈ [97], c ≠ NL)
      ∧ fgets zeroBuffer BUFF_SIZE (List.replicate 79 97 ++ ([97] ++ NL :: [])) =
        (List.replicate 79 97, List.replicate 79 97 ++ [0], [97] ++ NL :: [])
      ∧ lineRead ⟨List.replicate 78 97 ++ [0, 0], [97, NL], 1⟩ = [97] ++ [NL]
      ∧ lineRead ⟨List.replicate 78 97 ++ [0, 0], List.replicate 79 98 ++ [NL], 1⟩ =
          (List.replicate 79 98).take (BUFF_SIZE - 1) :=
  ⟨by decide, by decide, by decide, by decide, by decide,
    (long_line_chunks linuxSignals (osReturning 7) zeroBuffer (List.replicate 79 97) [97] [] 0
      (by decide) (by decide) (by decide) (by decide) (by decide)).1,
    ((long_line_chunks linuxSignals (osReturning 7) zeroBuffer (List.replicate 79 97) [97] [] 0
      (by decide) (by decide) (by decide) (by decide) (by decide)).2.2.2
        ⟨List.replicate 78 97 ++ [0, 0], [97, NL], 1⟩ (by decide)).2.2.2.2.1 (by decide),
    ((long_line_chunks linuxSignals (osReturning 7) zeroBuffer (List.replicate 79 97)
      (List.replicate 79 98) [] 0
      (by decide) (by decide) (by decide) (by decide) (by decide)).2.2.2
        ⟨List.replicate 78 97 ++ [0, 0], List.replicate 79 98 ++ [NL], 1⟩
        (by decide)).2.2.2.2.2.1 (by decide)⟩

set_option maxRecDepth 100000 in
/-- C8, as the claim has it, fails: on a line of 80 letters "a" the loop forks
twice, and the second child is asked to run "a", the 80th character, as a
command of its own. -/
theorem long_line_dispatched_twice :
    main linuxSignals (osChildAt 1) 2 ⟨zeroBuffer, List.replicate 80 97 ++ [NL], 0⟩ =
        ([prompt, .fgets (List.replicate 79 97), .fork 7, .waitpid 7,
          .flush .stderr, .flush .stdout,
          prompt, .fgets [97, NL], .fork 0, .execlp [97] [[97]],
          .write .stderr "Exec failed: No such file or directory\n"], .exited 0)
      ∧ ¬ forkCalls (main linuxSignals (osChildAt 1) 2
          ⟨zeroBuffer, List.replicate 80 97 ++ [NL], 0⟩).1 ≤ 1 := by
  decide

/-- C9 fails on the code: on the final line "exit" with no newline after it,
the strip removes the "t", the command dispatched is "exi", and the child is
asked to run "exi" instead of the loop taking the exit branch. -/
theorem strip_drops_last_character :
    (strip (fgets zeroBuffer BUFF_SIZE (lit "exit")).2.1).map cstr = some (lit "exi")
      ∧ iteration linuxSignals (osChildAt 0) ⟨zeroBuffer, lit "exit", 0⟩ =
        ([prompt, .fgets (lit "exit"), .fork 0, .execlp (lit "exi") [lit "exi"],
          .write .stderr "Exec failed: No such file or directory\n"], .exited 0) := by
  decide

/-- C10 fails on the code: on the input "a", newline, end of input, the
second pass strips the stale "a" to the empty string, and the third pass finds
`strlen(buffer) = 0` and stores at index -1: the run is undefined. -/
theorem strip_index_minus_one :
    (∃ ev st2, main linuxSignals (osReturning 7) 2 ⟨zeroBuffer, lit "a\n", 0⟩ = (ev, .next st2)
        ∧ st2.stdin = [] ∧ strlen st2.buffer = some 0 ∧ strip st2.buffer = none)
      ∧ (main linuxSignals (osReturning 7) 3 ⟨zeroBuffer, lit "a\n", 0⟩).2 = .undefined := by
  refine ⟨⟨_, _, rfl, ?_, ?_, ?_⟩, ?_⟩ <;> decide


end Shell
